import Mathlib

set_option maxHeartbeats 1000000

/- Shallow embedding of the AgentRoundtable debate tournament
   (src/DebateClass.py).  Agent ids are modelled as natural numbers: the
   Python code registers agents in an insertion-ordered dict with keys
   "agent_0", "agent_1", ..., in index order, so the map i to "agent_i"
   identifies the two.  The text-generation backend (ollama.chat) is
   modelled as an oracle from the submitted message list to the reply
   text, and the wall-clock latency of each call as an oracle from the
   global call counter to a rational duration.  Wall-clock timestamps
   (datetime.now / phase durations), tqdm progress output and the JSON
   files written to disk are external effects outside the embedding;
   every value that later code reads back is kept in the state. -/

/-- A chat message: (role, content), as in the Python message dicts. -/
abbrev Message := String × String

/-- The opaque text-generation backend, ollama.chat as an oracle. -/
abbrev Backend := List Message → String

/-- Python truthiness of an optional string (None and "" are falsy),
as used by the guard in DebateAgent._get_context. -/
def pyTruthy : Option String → Bool
  | none => false
  | some s => !(s == "")

/-- Rendering of an optional string into an f-string (None prints as
"None"). -/
def pyOptStr : Option String → String
  | none => "None"
  | some s => s

/-- Python sum over a list of rationals (left fold from 0). -/
def sumQ (l : List ℚ) : ℚ := l.foldl (· + ·) 0

/-- DebateAgent: one conversational identity with its history, stance
and latency metrics (DebateClass.py, class DebateAgent). -/
structure DebateAgent where
  agent_id : ℕ
  model : String
  conversation_history : List Message
  initial_position : Option String
  position_label : Option String
  total_tokens : ℕ
  total_time : ℚ
  response_times : List ℚ
  avg_response_time : ℚ
deriving Repr, DecidableEq

/-- DebateAgent.__init__. -/
def DebateAgent.mkAgent (agent_id : ℕ) (model : String) : DebateAgent :=
  { agent_id := agent_id
    model := model
    conversation_history := []
    initial_position := none
    position_label := none
    total_tokens := 0
    total_time := 0
    response_times := []
    avg_response_time := 0 }

/-- DebateAgent._get_context: optional system framing message, then the
full history, then the new prompt. -/
def DebateAgent.getContext (a : DebateAgent) (prompt : String) : List Message :=
  (if pyTruthy a.initial_position && pyTruthy a.position_label then
    [("system", "You are a member of a round table discussing " ++
      pyOptStr a.position_label ++ ". Your stance is: " ++
      pyOptStr a.initial_position ++ ".")]
  else []) ++
  a.conversation_history ++ [("user", prompt)]

/-- DebateAgent.generate_response: submit the messages (with or without
history), record the elapsed latency into the metrics, and append both
the prompt and the reply to the conversation history.  The elapsed
wall-clock duration of the call is supplied by the environment. -/
def DebateAgent.generate_response (a : DebateAgent) (backend : Backend)
    (elapsed : ℚ) (prompt : String) (include_history : Bool) :
    String × DebateAgent :=
  let messages := if include_history then a.getContext prompt
    else [("user", prompt)]
  let content := backend messages
  let rts := a.response_times ++ [elapsed]
  (content,
    { a with
      response_times := rts
      total_time := a.total_time + elapsed
      avg_response_time := sumQ rts / (rts.length : ℚ)
      conversation_history := a.conversation_history ++
        [("user", prompt), ("assistant", content)] })

/-- DebateAgent.set_initial_position: one history-free call, then store
the reply as the initial position and the label. -/
def DebateAgent.set_initial_position (a : DebateAgent) (backend : Backend)
    (elapsed : ℚ) (question : String) (label : String) :
    String × DebateAgent :=
  let r := a.generate_response backend elapsed question false
  (r.1,
    { r.2 with
      initial_position := some r.1
      position_label := some label })

/-- Python min over a possibly empty list of rationals, defaulting to 0
as in DebateAgent.get_metrics. -/
def pyMinD : List ℚ → ℚ
  | [] => 0
  | x :: xs => xs.foldl min x

/-- Python max over a possibly empty list of rationals, defaulting to 0
as in DebateAgent.get_metrics. -/
def pyMaxD : List ℚ → ℚ
  | [] => 0
  | x :: xs => xs.foldl max x

/-- The snapshot returned by DebateAgent.get_metrics. -/
structure AgentMetrics where
  agent_id : ℕ
  model : String
  total_responses : ℕ
  total_time : ℚ
  avg_response_time : ℚ
  min_response_time : ℚ
  max_response_time : ℚ
  total_tokens : ℕ
  conversation_length : ℕ
deriving Repr, DecidableEq

/-- DebateAgent.get_metrics. -/
def DebateAgent.get_metrics (a : DebateAgent) : AgentMetrics :=
  { agent_id := a.agent_id
    model := a.model
    total_responses := a.response_times.length
    total_time := a.total_time
    avg_response_time := a.avg_response_time
    min_response_time := pyMinD a.response_times
    max_response_time := pyMaxD a.response_times
    total_tokens := a.total_tokens
    conversation_length := a.conversation_history.length }

/-- One debate round record: the round type tag and the two texts keyed
by the first and second participant (the Python dict
with keys type, agent_a_id, agent_b_id). -/
structure DebateRound where
  rtype : String
  first : String
  second : String
deriving Repr, DecidableEq

/-- One debate record (participants plus its rounds).  The timing entry
of the Python dict is wall-clock output never read back by later
phases, hence external to the embedding. -/
structure Debate where
  participants : ℕ × ℕ
  rounds : List DebateRound
deriving Repr, DecidableEq

/-- One recorded vote (the dict appended in run_phase_3_voting). -/
structure VoteRec where
  voter_id : ℕ
  winner_id : ℕ
  reasoning : String
  vote : String
deriving Repr, DecidableEq

/-- The vote set of one debate (the value stored under "debate_i"). -/
structure DebateVoteSet where
  participants : ℕ × ℕ
  votes : List VoteRec
deriving Repr, DecidableEq

/-- itertools.combinations(l, 2): all index pairs i < j, enumerated in
lexicographic order of indices. -/
def combinations2 {α : Type} : List α → List (α × α)
  | [] => []
  | x :: xs => (xs.map (fun y => (x, y))) ++ combinations2 xs

/-- The tournament state (class DebateTournament): configuration and
the mutable stores positions / debates / votes.  The calls field counts
backend calls made so far, indexing the latency oracle. -/
structure Tournament where
  num_agents : ℕ
  topic_question : String
  position_label : String
  agents : List DebateAgent
  positions : List (ℕ × String)
  debates : List Debate
  votes : List DebateVoteSet
  calls : ℕ
deriving Repr, DecidableEq

/-- DebateTournament.__init__ with a single model for every agent (the
default models=None branch). -/
def Tournament.mkTournament (n : ℕ) (model topic label : String) : Tournament :=
  { num_agents := n
    topic_question := topic
    position_label := label
    agents := (List.range n).map (fun i => DebateAgent.mkAgent i model)
    positions := []
    debates := []
    votes := []
    calls := 0 }

/-- Dict lookup in the agent registry: the agents dict is keyed in
registration order, so key i is position i of the list. -/
def agentAt (l : List DebateAgent) (i : ℕ) : DebateAgent :=
  l.getD i (DebateAgent.mkAgent i "")

/-- One iteration of the run_phase_1_positions loop: agent i produces
its initial position, which is stored in the positions mapping. -/
def phase1Step (backend : Backend) (times : ℕ → ℚ) (s : Tournament)
    (i : ℕ) : Tournament :=
  let a := agentAt s.agents i
  let r := a.set_initial_position backend (times s.calls)
    s.topic_question s.position_label
  { s with
    agents := s.agents.set i r.2
    positions := s.positions ++ [(i, r.1)]
    calls := s.calls + 1 }

/-- DebateTournament.run_phase_1_positions: every agent, in
registration order, generates its initial position. -/
def run_phase_1 (backend : Backend) (times : ℕ → ℚ) (s : Tournament) :
    Tournament :=
  (List.range s.num_agents).foldl (phase1Step backend times) s

/-- DebateTournament.run_debate: the two-round exchange between agents
i and j, appending the debate record and the four history updates. -/
def run_debate (backend : Backend) (times : ℕ → ℚ) (s : Tournament)
    (i j : ℕ) : Tournament :=
  let a := agentAt s.agents i
  let b := agentAt s.agents j
  let lbl := s.position_label
  let rebuttal_prompt_a := "Your opponent's " ++ lbl ++ " is:\n" ++
    pyOptStr b.initial_position ++
    "\n\nPoint out specific weaknesses, contradictions, or problems with their " ++
    lbl ++ ".\nBe analytical and precise. Keep response under 150 words."
  let rebuttal_prompt_b := "Your opponent's " ++ lbl ++ " is:\n" ++
    pyOptStr a.initial_position ++
    "\n\nPoint out specific weaknesses, contradictions, or problems with their " ++
    lbl ++ ".\nBe analytical and precise. Keep response under 150 words."
  let ra := a.generate_response backend (times s.calls) rebuttal_prompt_a true
  let rb := b.generate_response backend (times (s.calls + 1)) rebuttal_prompt_b true
  let counter_prompt_a := "Your opponent criticized your " ++ lbl ++
    " by saying:\n" ++ rb.1 ++
    "\n\nAddress their criticisms directly and explain why your " ++ lbl ++
    " still holds.\nKeep response under 150 words."
  let counter_prompt_b := "Your opponent criticized your " ++ lbl ++
    " by saying:\n" ++ ra.1 ++
    "\n\nAddress their criticisms directly and explain why your " ++ lbl ++
    " still holds.\nKeep response under 150 words."
  let ca := ra.2.generate_response backend (times (s.calls + 2)) counter_prompt_a true
  let cb := rb.2.generate_response backend (times (s.calls + 3)) counter_prompt_b true
  let debate : Debate :=
    { participants := (i, j)
      rounds := [⟨"first_rebuttal", ra.1, rb.1⟩,
                 ⟨"counter_rebuttal", ca.1, cb.1⟩] }
  { s with
    agents := (s.agents.set i ca.2).set j cb.2
    debates := s.debates ++ [debate]
    calls := s.calls + 4 }

/-- DebateTournament.run_phase_2_debates: run every debate, one per
unordered pair of registered agents, in combinations order. -/
def run_phase_2 (backend : Backend) (times : ℕ → ℚ) (s : Tournament) :
    Tournament :=
  (combinations2 (List.range s.num_agents)).foldl
    (fun st p => run_debate backend times st p.1 p.2) s

/-- Rendering of an agent id back into its Python dict-key string. -/
def pyAgentId (i : ℕ) : String := "agent_" ++ toString i

/-- DebateTournament._format_debate_for_voting (the debate_index
parameter of the Python method is unused by its body). -/
def format_debate_for_voting (s : Tournament) (d : Debate) : String :=
  let p0 := d.participants.1
  let p1 := d.participants.2
  let pos_a := pyOptStr ((s.positions.lookup p0))
  let pos_b := pyOptStr ((s.positions.lookup p1))
  let r0 := d.rounds.getD 0 ⟨"", "", ""⟩
  let r1 := d.rounds.getD 1 ⟨"", "", ""⟩
  "Judge this debate about " ++ s.position_label ++
  "s.\n\n=== Initial Positions ===\nPosition A (" ++ pyAgentId p0 ++ "): " ++
  pos_a ++ "\n\nPosition B (" ++ pyAgentId p1 ++ "): " ++ pos_b ++
  "\n\n=== Debate ===\nA's criticism of B: " ++ r0.first ++
  "\n\nB's criticism of A: " ++ r0.second ++
  "\n\nA's defense: " ++ r1.first ++
  "\n\nB's defense: " ++ r1.second

/-- The vote-extraction heuristic of run_phase_3_voting: the recorded
choice is "A" exactly when the literal character A occurs among the
first 10 characters of the response (Python: "A" in vote_response[:10]),
and "B" otherwise. -/
def parse_vote (vote_response : String) : String :=
  if (vote_response.toList.take 10).contains 'A' then "A" else "B"

/-- The winner-id mapping of run_phase_3_voting: participants[0] for
choice "A", participants[1] otherwise. -/
def vote_winner (participants : ℕ × ℕ) (vote : String) : ℕ :=
  if vote = "A" then participants.1 else participants.2

/-- One voter step of the inner loop of run_phase_3_voting: skip
participants; otherwise solicit, parse and record the vote. -/
def collect_votes (backend : Backend) (times : ℕ → ℚ) (d : Debate) :
    List ℕ → Tournament × List VoteRec → Tournament × List VoteRec
  | [], acc => acc
  | i :: rest, acc =>
    if i = d.participants.1 ∨ i = d.participants.2 then
      collect_votes backend times d rest acc
    else
      let st := acc.1
      let debate_summary := format_debate_for_voting st d
      let vote_prompt := debate_summary ++
        "\n\nBased on the strength of arguments and rebuttals, which " ++
        st.position_label ++
        " is more convincing?\nReply with only 'A' or 'B' and one sentence explaining why."
      let agent := agentAt st.agents i
      let r := agent.generate_response backend (times st.calls) vote_prompt true
      let vote := parse_vote r.1
      let winner_id := vote_winner d.participants vote
      collect_votes backend times d rest
        ({ st with agents := st.agents.set i r.2, calls := st.calls + 1 },
         acc.2 ++ [⟨i, winner_id, r.1, vote⟩])

/-- One debate iteration of run_phase_3_voting: collect the votes of
every non-participant, in registration order, then store the vote set. -/
def phase3Debate (backend : Backend) (times : ℕ → ℚ) (s : Tournament)
    (d : Debate) : Tournament :=
  let r := collect_votes backend times d (List.range s.num_agents) (s, [])
  { r.1 with votes := r.1.votes ++ [⟨d.participants, r.2⟩] }

/-- DebateTournament.run_phase_3_voting. -/
def run_phase_3 (backend : Backend) (times : ℕ → ℚ) (s : Tournament) :
    Tournament :=
  s.debates.foldl (phase3Debate backend times) s

/-- One step of the per-debate tally loop of calculate_results:
winner_count[w] = winner_count.get(w, 0) + 1, with dict insertion
order (a fresh key is appended at the end). -/
def bump (m : List (ℕ × ℕ)) (k : ℕ) : List (ℕ × ℕ) :=
  if m.any (fun p => p.1 == k) then
    m.map (fun p => if p.1 == k then (p.1, p.2 + 1) else p)
  else m ++ [(k, 1)]

/-- The winner_count dict built by calculate_results for one debate. -/
def tallyVotes (votes : List VoteRec) : List (ℕ × ℕ) :=
  votes.foldl (fun m v => bump m v.winner_id) []

/-- Python max(mapping, key=mapping.get) over an insertion-ordered
mapping: the first key holding the maximal value, an error (none) on an
empty mapping. -/
def pyArgmax : List (ℕ × ℕ) → Option ℕ
  | [] => none
  | x :: xs => some ((xs.foldl (fun best y => if best.2 < y.2 then y else best) x).1)

/-- The per-debate winner chosen by calculate_results. -/
def debateWinner (votes : List VoteRec) : Option ℕ :=
  pyArgmax (tallyVotes votes)

/-- The win_counts accumulation loop of calculate_results.  Fails
(none) where the Python code raises: max over an empty tally
(ValueError), or a winner id missing from win_counts (KeyError). -/
def accumWins (wc : List (ℕ × ℕ)) : List DebateVoteSet → Option (List (ℕ × ℕ))
  | [] => some wc
  | vs :: rest =>
    match debateWinner vs.votes with
    | none => none
    | some w =>
      if wc.any (fun p => p.1 == w) then
        accumWins (wc.map (fun p => if p.1 == w then (p.1, p.2 + 1) else p)) rest
      else none

/-- Stable insertion of one (agent, wins) entry into a descending
ranking: the entry goes after every already placed entry whose count is
at least its own. -/
def insertDesc (x : ℕ × ℕ) : List (ℕ × ℕ) → List (ℕ × ℕ)
  | [] => [x]
  | y :: ys => if y.2 < x.2 then x :: y :: ys else y :: insertDesc x ys

/-- Python sorted(win_counts.items(), key=wins, reverse=True): stable
descending sort, entries with equal win counts keeping their
registration order. -/
def sortRankings (l : List (ℕ × ℕ)) : List (ℕ × ℕ) :=
  l.foldl (fun acc x => insertDesc x acc) []

/-- The final results record written by calculate_results (the
wall-clock timestamp and duration entries of tournament_info are
external real-time readings outside the embedding). -/
structure TournamentResults where
  num_agents : ℕ
  topic_question : String
  position_label : String
  rankings : List (ℕ × ℕ)
  win_counts : List (ℕ × ℕ)
  agent_performance : List AgentMetrics
deriving Repr, DecidableEq

/-- DebateTournament.calculate_results. -/
def calculate_results (s : Tournament) : Option TournamentResults :=
  match accumWins ((List.range s.num_agents).map (fun i => (i, 0))) s.votes with
  | none => none
  | some wc =>
    some { num_agents := s.num_agents
           topic_question := s.topic_question
           position_label := s.position_label
           rankings := sortRankings wc
           win_counts := wc
           agent_performance := s.agents.map DebateAgent.get_metrics }

/-- DebateTournament.run_tournament: the four phases in strict order. -/
def run_tournament (backend : Backend) (times : ℕ → ℚ) (n : ℕ)
    (model topic label : String) : Option TournamentResults :=
  calculate_results
    (run_phase_3 backend times
      (run_phase_2 backend times
        (run_phase_1 backend times
          (Tournament.mkTournament n model topic label))))

/-- The metrics coherence invariant of one agent: total_time is the sum
of the recorded response times, avg_response_time is total_time over
the number of recorded responses (0 before any call, as rational
division by zero is zero and the guard clause is also stated
explicitly), and total_tokens is never updated by any operation. -/
def metricsOK (a : DebateAgent) : Prop :=
  a.total_time = sumQ a.response_times ∧
  a.avg_response_time = a.total_time / (a.response_times.length : ℚ) ∧
  (a.response_times.length = 0 → a.avg_response_time = 0) ∧
  a.total_tokens = 0

/-- The per-agent pieces of a metrics snapshot that do not depend on
wall-clock latencies. -/
structure AgentMetricsCore where
  agent_id : ℕ
  model : String
  total_responses : ℕ
  total_tokens : ℕ
  conversation_length : ℕ
deriving Repr, DecidableEq

/-- Drop the latency-valued fields from a metrics snapshot. -/
def stripMetrics (m : AgentMetrics) : AgentMetricsCore :=
  { agent_id := m.agent_id
    model := m.model
    total_responses := m.total_responses
    total_tokens := m.total_tokens
    conversation_length := m.conversation_length }

/-- The tournament results with every wall-clock-derived field (the
timestamp and all duration/latency values) removed. -/
structure ResultsCore where
  num_agents : ℕ
  topic_question : String
  position_label : String
  rankings : List (ℕ × ℕ)
  win_counts : List (ℕ × ℕ)
  agent_performance : List AgentMetricsCore
deriving Repr, DecidableEq

/-- Drop the wall-clock-derived fields from the tournament results. -/
def stripResults (r : TournamentResults) : ResultsCore :=
  { num_agents := r.num_agents
    topic_question := r.topic_question
    position_label := r.position_label
    rankings := r.rankings
    win_counts := r.win_counts
    agent_performance := r.agent_performance.map stripMetrics }

/-- The latency-independent view of an agent: everything except the
values of the recorded response times (their count is kept). -/
structure CoreAgent where
  agent_id : ℕ
  model : String
  conversation_history : List Message
  initial_position : Option String
  position_label : Option String
  total_tokens : ℕ
  rt_len : ℕ
deriving Repr, DecidableEq

/-- Project an agent onto its latency-independent view. -/
def agentCore (a : DebateAgent) : CoreAgent :=
  { agent_id := a.agent_id
    model := a.model
    conversation_history := a.conversation_history
    initial_position := a.initial_position
    position_label := a.position_label
    total_tokens := a.total_tokens
    rt_len := a.response_times.length }

/-- The latency-independent view of the tournament state. -/
structure CoreState where
  num_agents : ℕ
  topic_question : String
  position_label : String
  agents : List CoreAgent
  positions : List (ℕ × String)
  debates : List Debate
  votes : List DebateVoteSet
  calls : ℕ
deriving Repr, DecidableEq

/-- Project the tournament state onto its latency-independent view. -/
def stateCore (s : Tournament) : CoreState :=
  { num_agents := s.num_agents
    topic_question := s.topic_question
    position_label := s.position_label
    agents := s.agents.map agentCore
    positions := s.positions
    debates := s.debates
    votes := s.votes
    calls := s.calls }

/-- Latency-free counterpart of DebateAgent.__init__. -/
def CoreAgent.mkCore (agent_id : ℕ) (model : String) : CoreAgent :=
  { agent_id := agent_id
    model := model
    conversation_history := []
    initial_position := none
    position_label := none
    total_tokens := 0
    rt_len := 0 }

/-- Latency-free counterpart of DebateAgent._get_context. -/
def CoreAgent.getContext (c : CoreAgent) (prompt : String) : List Message :=
  (if pyTruthy c.initial_position && pyTruthy c.position_label then
    [("system", "You are a member of a round table discussing " ++
      pyOptStr c.position_label ++ ". Your stance is: " ++
      pyOptStr c.initial_position ++ ".")]
  else []) ++
  c.conversation_history ++ [("user", prompt)]

/-- Latency-free counterpart of DebateAgent.generate_response. -/
def CoreAgent.gen (backend : Backend) (c : CoreAgent) (prompt : String)
    (include_history : Bool) : String × CoreAgent :=
  let messages := if include_history then c.getContext prompt
    else [("user", prompt)]
  let content := backend messages
  (content,
    { c with
      rt_len := c.rt_len + 1
      conversation_history := c.conversation_history ++
        [("user", prompt), ("assistant", content)] })

/-- Latency-free counterpart of DebateAgent.set_initial_position. -/
def CoreAgent.setInit (backend : Backend) (c : CoreAgent)
    (question : String) (label : String) : String × CoreAgent :=
  let r := CoreAgent.gen backend c question false
  (r.1,
    { r.2 with
      initial_position := some r.1
      position_label := some label })

/-- Latency-free agent-registry lookup. -/
def coreAgentAt (l : List CoreAgent) (i : ℕ) : CoreAgent :=
  l.getD i (CoreAgent.mkCore i "")

/-- Latency-free counterpart of one run_phase_1_positions iteration. -/
def corePhase1Step (backend : Backend) (s : CoreState) (i : ℕ) : CoreState :=
  let a := coreAgentAt s.agents i
  let r := CoreAgent.setInit backend a s.topic_question s.position_label
  { s with
    agents := s.agents.set i r.2
    positions := s.positions ++ [(i, r.1)]
    calls := s.calls + 1 }

/-- Latency-free counterpart of run_phase_1_positions. -/
def corePhase1 (backend : Backend) (s : CoreState) : CoreState :=
  (List.range s.num_agents).foldl (corePhase1Step backend) s

/-- Latency-free counterpart of run_debate. -/
def coreRunDebate (backend : Backend) (s : CoreState) (i j : ℕ) : CoreState :=
  let a := coreAgentAt s.agents i
  let b := coreAgentAt s.agents j
  let lbl := s.position_label
  let rebuttal_prompt_a := "Your opponent's " ++ lbl ++ " is:\n" ++
    pyOptStr b.initial_position ++
    "\n\nPoint out specific weaknesses, contradictions, or problems with their " ++
    lbl ++ ".\nBe analytical and precise. Keep response under 150 words."
  let rebuttal_prompt_b := "Your opponent's " ++ lbl ++ " is:\n" ++
    pyOptStr a.initial_position ++
    "\n\nPoint out specific weaknesses, contradictions, or problems with their " ++
    lbl ++ ".\nBe analytical and precise. Keep response under 150 words."
  let ra := CoreAgent.gen backend a rebuttal_prompt_a true
  let rb := CoreAgent.gen backend b rebuttal_prompt_b true
  let counter_prompt_a := "Your opponent criticized your " ++ lbl ++
    " by saying:\n" ++ rb.1 ++
    "\n\nAddress their criticisms directly and explain why your " ++ lbl ++
    " still holds.\nKeep response under 150 words."
  let counter_prompt_b := "Your opponent criticized your " ++ lbl ++
    " by saying:\n" ++ ra.1 ++
    "\n\nAddress their criticisms directly and explain why your " ++ lbl ++
    " still holds.\nKeep response under 150 words."
  let ca := CoreAgent.gen backend ra.2 counter_prompt_a true
  let cb := CoreAgent.gen backend rb.2 counter_prompt_b true
  let debate : Debate :=
    { participants := (i, j)
      rounds := [⟨"first_rebuttal", ra.1, rb.1⟩,
                 ⟨"counter_rebuttal", ca.1, cb.1⟩] }
  { s with
    agents := (s.agents.set i ca.2).set j cb.2
    debates := s.debates ++ [debate]
    calls := s.calls + 4 }

/-- Latency-free counterpart of run_phase_2_debates. -/
def corePhase2 (backend : Backend) (s : CoreState) : CoreState :=
  (combinations2 (List.range s.num_agents)).foldl
    (fun st p => coreRunDebate backend st p.1 p.2) s

/-- Latency-free counterpart of _format_debate_for_voting. -/
def coreFormat (s : CoreState) (d : Debate) : String :=
  let p0 := d.participants.1
  let p1 := d.participants.2
  let pos_a := pyOptStr ((s.positions.lookup p0))
  let pos_b := pyOptStr ((s.positions.lookup p1))
  let r0 := d.rounds.getD 0 ⟨"", "", ""⟩
  let r1 := d.rounds.getD 1 ⟨"", "", ""⟩
  "Judge this debate about " ++ s.position_label ++
  "s.\n\n=== Initial Positions ===\nPosition A (" ++ pyAgentId p0 ++ "): " ++
  pos_a ++ "\n\nPosition B (" ++ pyAgentId p1 ++ "): " ++ pos_b ++
  "\n\n=== Debate ===\nA's criticism of B: " ++ r0.first ++
  "\n\nB's criticism of A: " ++ r0.second ++
  "\n\nA's defense: " ++ r1.first ++
  "\n\nB's defense: " ++ r1.second

/-- Latency-free counterpart of the voter loop of run_phase_3_voting. -/
def coreCollect (backend : Backend) (d : Debate) :
    List ℕ → CoreState × List VoteRec → CoreState × List VoteRec
  | [], acc => acc
  | i :: rest, acc =>
    if i = d.participants.1 ∨ i = d.participants.2 then
      coreCollect backend d rest acc
    else
      let st := acc.1
      let debate_summary := coreFormat st d
      let vote_prompt := debate_summary ++
        "\n\nBased on the strength of arguments and rebuttals, which " ++
        st.position_label ++
        " is more convincing?\nReply with only 'A' or 'B' and one sentence explaining why."
      let agent := coreAgentAt st.agents i
      let r := CoreAgent.gen backend agent vote_prompt true
      let vote := parse_vote r.1
      let winner_id := vote_winner d.participants vote
      coreCollect backend d rest
        ({ st with agents := st.agents.set i r.2, calls := st.calls + 1 },
         acc.2 ++ [⟨i, winner_id, r.1, vote⟩])

/-- Latency-free counterpart of one debate iteration of
run_phase_3_voting. -/
def corePhase3Debate (backend : Backend) (s : CoreState) (d : Debate) :
    CoreState :=
  let r := coreCollect backend d (List.range s.num_agents) (s, [])
  { r.1 with votes := r.1.votes ++ [⟨d.participants, r.2⟩] }

/-- Latency-free counterpart of run_phase_3_voting. -/
def corePhase3 (backend : Backend) (s : CoreState) : CoreState :=
  s.debates.foldl (corePhase3Debate backend) s

/-- Latency-free counterpart of one metrics snapshot, keeping only the
latency-independent fields. -/
def coreMetrics (c : CoreAgent) : AgentMetricsCore :=
  { agent_id := c.agent_id
    model := c.model
    total_responses := c.rt_len
    total_tokens := c.total_tokens
    conversation_length := c.conversation_history.length }

/-- Latency-free counterpart of calculate_results. -/
def coreCalc (s : CoreState) : Option ResultsCore :=
  match accumWins ((List.range s.num_agents).map (fun i => (i, 0))) s.votes with
  | none => none
  | some wc =>
    some { num_agents := s.num_agents
           topic_question := s.topic_question
           position_label := s.position_label
           rankings := sortRankings wc
           win_counts := wc
           agent_performance := s.agents.map coreMetrics }

/-- Latency-free counterpart of run_tournament: no latency oracle
appears anywhere in its definition. -/
def coreRun (backend : Backend) (n : ℕ) (model topic label : String) :
    Option ResultsCore :=
  coreCalc
    (corePhase3 backend
      (corePhase2 backend
        (corePhase1 backend
          (stateCore (Tournament.mkTournament n model topic label)))))

/-- Number of occurrences of one ordered pair in a pair list. -/
def countOcc (p : ℕ × ℕ) (l : List (ℕ × ℕ)) : ℕ :=
  (l.filter (fun q => q = p)).length

/-- Number of votes naming k as winner in a vote list. -/
def countWinner (k : ℕ) (votes : List VoteRec) : ℕ :=
  (votes.filter (fun v => v.winner_id = k)).length

/- Theorems.  Each claim theorem is stated over the definitions above. -/

/-- C1 (counterexample): the claim that set_initial_position leaves the
conversation history unchanged is false.  On a fresh agent, one
set_initial_position call grows the history (generate_response appends
the prompt and the reply unconditionally, also when invoked with
include_history set to false). -/
theorem set_initial_position_history_changes :
    ((DebateAgent.mkAgent 0 "llama3.2").set_initial_position
        (fun _ => "An ideal society") 0
        "Describe your ideal society in 200 words."
        "position").2.conversation_history ≠
      (DebateAgent.mkAgent 0 "llama3.2").conversation_history := by
  decide

/-- C1 (amended): for every agent and question, set_initial_position
issues a single stateless backend call whose message list is exactly
the question with no prior history and no system framing, stores the
returned text as initial_position and the label as position_label, and
appends exactly the prompt (user turn) and the reply (assistant turn)
to the conversation history, which therefore grows by two entries. -/
theorem set_initial_position_spec (a : DebateAgent) (backend : Backend)
    (elapsed : ℚ) (question label : String) :
    (a.set_initial_position backend elapsed question label).1 =
      backend [("user", question)] ∧
    (a.set_initial_position backend elapsed question label).2.initial_position =
      some (backend [("user", question)]) ∧
    (a.set_initial_position backend elapsed question label).2.position_label =
      some label ∧
    (a.set_initial_position backend elapsed question label).2.conversation_history =
      a.conversation_history ++
        [("user", question), ("assistant", backend [("user", question)])] :=
  ⟨rfl, rfl, rfl, rfl⟩

/-- C2: the recorded choice is "A" exactly when the literal character A
occurs within the first 10 characters of the vote response, and "B"
otherwise; the recorded winner id is the first participant for choice A
and the second participant for choice B; and the four documented
scenarios behave as stated. -/
theorem vote_extraction_spec :
    (∀ s : String,
      (parse_vote s = "A" ↔ 'A' ∈ s.toList.take 10) ∧
      ('A' ∉ s.toList.take 10 → parse_vote s = "B")) ∧
    (∀ (p : ℕ × ℕ) (s : String),
      vote_winner p (parse_vote s) =
        if 'A' ∈ s.toList.take 10 then p.1 else p.2) ∧
    parse_vote "A, because it's fairer" = "A" ∧
    parse_vote "I pick B" = "B" ∧
    parse_vote "Neither are convincing but I suppose B" = "B" ∧
    parse_vote "1234 5678 ..." = "B" := by
  refine ⟨fun s => ⟨?_, ?_⟩, fun p s => ?_, by decide, by decide, by decide, by decide⟩
  · simp [parse_vote]
  · intro h
    simp [parse_vote]
    exact h
  · by_cases h : 'A' ∈ s.toList.take 10 <;>
      simp [parse_vote, vote_winner, h]

/-- C7: in a 3-agent tournament whose stubbed backend answers "A" to
every call (so the earlier-registered participant wins every vote,
participants being listed in registration order), the pairing yields
the debates (0,1), (0,2), (1,2) in that order, and aggregation yields
win counts 2, 1, 0 for agents 0, 1, 2 and the rankings in that same
order. -/
theorem three_agent_end_to_end :
    ((run_phase_2 (fun _ => "A") (fun _ => 0)
        (run_phase_1 (fun _ => "A") (fun _ => 0)
          (Tournament.mkTournament 3 "llama3.2"
            "Describe your ideal society in 200 words."
            "position"))).debates.map (fun d => d.participants)) =
      [(0, 1), (0, 2), (1, 2)] ∧
    (run_tournament (fun _ => "A") (fun _ => 0) 3 "llama3.2"
        "Describe your ideal society in 200 words." "position").map
      (fun r => (r.win_counts, r.rankings)) =
      some ([(0, 2), (1, 1), (2, 0)], [(0, 2), (1, 1), (2, 0)]) :=
  ⟨rfl, rfl⟩

/-- C10: the metrics coherence invariant (total_time is the sum of the
recorded response times, avg_response_time is total_time over the
response count and 0 before any call, total_tokens stays 0) holds of a
freshly constructed agent and is preserved by every generate_response
call, hence holds after any sequence of such calls. -/
theorem metrics_coherence_invariant :
    (∀ (i : ℕ) (m : String), metricsOK (DebateAgent.mkAgent i m)) ∧
    (∀ (a : DebateAgent) (backend : Backend) (elapsed : ℚ)
      (prompt : String) (include_history : Bool), metricsOK a →
        metricsOK (a.generate_response backend elapsed prompt include_history).2) := by
  constructor
  · intro i m
    simp [metricsOK, DebateAgent.mkAgent, sumQ]
  · rintro a backend elapsed prompt include_history ⟨h1, h2, h3, h4⟩
    refine ⟨?_, ?_, ?_, ?_⟩
    · simp [DebateAgent.generate_response, sumQ, List.foldl_append, h1]
    · simp [DebateAgent.generate_response, sumQ, List.foldl_append, h1]
    · intro h
      simp [DebateAgent.generate_response] at h
    · simpa [DebateAgent.generate_response] using h4

/-- Witness for the metrics coherence invariant: it holds concretely
after one generate_response call on a fresh agent. -/
theorem metrics_coherence_invariant_witness :
    metricsOK (((DebateAgent.mkAgent 0 "llama3.2").generate_response
      (fun _ => "ok") 2 "hi" true).2) :=
  metrics_coherence_invariant.2 _ _ 2 "hi" true
    (metrics_coherence_invariant.1 0 "llama3.2")

lemma comb2_length {α : Type} (l : List α) :
    2 * (combinations2 l).length = l.length * (l.length - 1) := by
  induction l with
  | nil => rfl
  | cons x xs ih =>
    simp only [combinations2, List.length_append, List.length_map,
      List.length_cons, Nat.add_sub_cancel]
    rw [Nat.mul_add, ih]
    cases hm : xs.length with
    | zero => simp
    | succ k => simp [Nat.succ_sub_one]; ring

lemma comb2_mem (l : List ℕ) (hl : l.Pairwise (· < ·)) (a b : ℕ) :
    (a, b) ∈ combinations2 l ↔ a ∈ l ∧ b ∈ l ∧ a < b := by
  induction l with
  | nil => simp [combinations2]
  | cons x xs ih =>
    rw [List.pairwise_cons] at hl
    obtain ⟨hx, hxs⟩ := hl
    simp only [combinations2, List.mem_append, List.mem_map, List.mem_cons,
      ih hxs]
    constructor
    · rintro (⟨y, hy, he⟩ | ⟨ha, hb, hab⟩)
      · cases he
        exact ⟨Or.inl rfl, Or.inr hy, hx _ hy⟩
      · exact ⟨Or.inr ha, Or.inr hb, hab⟩
    · rintro ⟨rfl | ha, rfl | hb, hab⟩
      · exact absurd hab (lt_irrefl _)
      · exact Or.inl ⟨b, hb, rfl⟩
      · exact absurd hab (not_lt_of_gt (hx _ ha))
      · exact Or.inr ⟨ha, hb, hab⟩

lemma comb2_pairwise (l : List ℕ) (hl : l.Pairwise (· < ·)) :
    List.Pairwise (fun p q : ℕ × ℕ => p.1 < q.1 ∨ (p.1 = q.1 ∧ p.2 < q.2))
      (combinations2 l) := by
  induction l with
  | nil => simp [combinations2]
  | cons x xs ih =>
    rw [List.pairwise_cons] at hl
    obtain ⟨hx, hxs⟩ := hl
    simp only [combinations2]
    rw [List.pairwise_append]
    refine ⟨?_, ih hxs, ?_⟩
    · rw [List.pairwise_map]
      exact hxs.imp (fun h => Or.inr ⟨rfl, h⟩)
    · rintro ⟨u, v⟩ hu ⟨c, d⟩ hc
      simp only [List.mem_map] at hu
      obtain ⟨y, _, he⟩ := hu
      cases he
      rw [comb2_mem xs hxs] at hc
      exact Or.inl (hx _ hc.1)

lemma comb2_nodup (l : List ℕ) (hl : l.Pairwise (· < ·)) :
    (combinations2 l).Nodup := by
  refine (comb2_pairwise l hl).imp ?_
  rintro p q (h | ⟨_, h⟩) rfl <;> exact absurd h (lt_irrefl _)

lemma countOcc_cons (p x : ℕ × ℕ) (xs : List (ℕ × ℕ)) :
    countOcc p (x :: xs) = (if x = p then 1 else 0) + countOcc p xs := by
  by_cases h : x = p <;>
    simp [countOcc, List.filter_cons, h, Nat.add_comm]

lemma countOcc_eq_zero (p : ℕ × ℕ) (l : List (ℕ × ℕ)) (h : p ∉ l) :
    countOcc p l = 0 := by
  induction l with
  | nil => rfl
  | cons x xs ih =>
    simp only [List.mem_cons, not_or] at h
    rw [countOcc_cons, if_neg (fun he => h.1 he.symm), ih h.2]

lemma countOcc_eq_one (p : ℕ × ℕ) (l : List (ℕ × ℕ)) (hnd : l.Nodup)
    (h : p ∈ l) : countOcc p l = 1 := by
  induction l with
  | nil => cases h
  | cons x xs ih =>
    rw [List.nodup_cons] at hnd
    rcases List.mem_cons.1 h with rfl | hp
    · rw [countOcc_cons, if_pos rfl, countOcc_eq_zero _ _ hnd.1]
    · refine Eq.trans (countOcc_cons p x xs) ?_
      rw [if_neg (fun he : x = p => hnd.1 (by rw [he]; exact hp)), ih hnd.2 hp]

/-- C4: for every agent count n with 2 or more agents, pairing
generation over the registered agent ids 0..n-1 yields exactly
n(n-1)/2 pairs; a pair is enumerated exactly when it is an ordered
representative (i, j) with i earlier-registered than j and both
registered; each unordered pair of distinct registered agents appears
exactly once (counting both orientations); there is no self-pair and no
repeat; and the enumeration is in the fixed lexicographic order
inherited from the registration order. -/
theorem pairing_generation_spec (n : ℕ) (_hn : 2 ≤ n) :
    2 * (combinations2 (List.range n)).length = n * (n - 1) ∧
    (combinations2 (List.range n)).length = n * (n - 1) / 2 ∧
    (∀ p : ℕ × ℕ, p ∈ combinations2 (List.range n) ↔ p.1 < p.2 ∧ p.2 < n) ∧
    (∀ a b : ℕ, a < n → b < n → a ≠ b →
      countOcc (a, b) (combinations2 (List.range n)) +
        countOcc (b, a) (combinations2 (List.range n)) = 1) ∧
    (combinations2 (List.range n)).Nodup ∧
    List.Pairwise (fun p q : ℕ × ℕ => p.1 < q.1 ∨ (p.1 = q.1 ∧ p.2 < q.2))
      (combinations2 (List.range n)) := by
  have hsorted := List.pairwise_lt_range n
  have hlen := comb2_length (List.range n)
  rw [List.length_range] at hlen
  have hmem : ∀ p : ℕ × ℕ,
      p ∈ combinations2 (List.range n) ↔ p.1 < p.2 ∧ p.2 < n := by
    rintro ⟨a, b⟩
    rw [comb2_mem _ hsorted]
    simp only [List.mem_range]
    constructor
    · rintro ⟨_, hb, hab⟩
      exact ⟨hab, hb⟩
    · rintro ⟨hab, hb⟩
      exact ⟨lt_trans hab hb, hb, hab⟩
  have hnd := comb2_nodup (List.range n) hsorted
  refine ⟨hlen, by omega, hmem, ?_, hnd, comb2_pairwise _ hsorted⟩
  intro a b ha hb hab
  rcases lt_or_gt_of_ne hab with h | h
  · rw [countOcc_eq_one _ _ hnd ((hmem (a, b)).2 ⟨h, hb⟩),
      countOcc_eq_zero]
    intro hmem2
    rw [hmem (b, a)] at hmem2
    exact absurd hmem2.1 (not_lt_of_gt h)
  · rw [countOcc_eq_one _ _ hnd ((hmem (b, a)).2 ⟨h, ha⟩),
      countOcc_eq_zero]
    · intro hmem2
      rw [hmem (a, b)] at hmem2
      exact absurd hmem2.1 (not_lt_of_gt h)

/-- Witness for the pairing specification at the concrete agent count
4: there are 4 times 3 over 2 pairs. -/
theorem pairing_generation_spec_witness :
    (combinations2 (List.range 4)).length = 4 * (4 - 1) / 2 :=
  (pairing_generation_spec 4 (by norm_num)).2.1

lemma countWinner_cons (k : ℕ) (v : VoteRec) (rest : List VoteRec) :
    countWinner k (v :: rest) =
      (if v.winner_id = k then 1 else 0) + countWinner k rest := by
  by_cases h : v.winner_id = k <;>
    simp [countWinner, List.filter_cons, h, Nat.add_comm]

lemma bump_nil (k : ℕ) : bump [] k = [(k, 1)] := rfl

lemma bump_single_same (p a : ℕ) : bump [(p, a)] p = [(p, a + 1)] := by
  simp [bump]

lemma bump_single_new (p q a : ℕ) (h : q ≠ p) :
    bump [(p, a)] q = [(p, a), (q, 1)] := by
  simp [bump, Ne.symm h]

lemma bump_pair_left (p q a b : ℕ) (h : q ≠ p) :
    bump [(p, a), (q, b)] p = [(p, a + 1), (q, b)] := by
  simp [bump, h]

lemma bump_pair_right (p q a b : ℕ) (h : p ≠ q) :
    bump [(p, a), (q, b)] q = [(p, a), (q, b + 1)] := by
  simp [bump, h]

lemma pyArgmax_single (p c : ℕ) : pyArgmax [(p, c)] = some p := rfl

lemma pyArgmax_pair (p q cp cq : ℕ) :
    pyArgmax [(p, cp), (q, cq)] = if cp < cq then some q else some p := by
  by_cases h : cp < cq <;> simp [pyArgmax, h]

lemma tally_two (p q : ℕ) (hpq : p ≠ q) :
    ∀ (l : List VoteRec) (a b : ℕ),
      (∀ v ∈ l, v.winner_id = p ∨ v.winner_id = q) →
      l.foldl (fun m v => bump m v.winner_id) [(p, a), (q, b)] =
        [(p, a + countWinner p l), (q, b + countWinner q l)] := by
  intro l
  induction l with
  | nil => intro a b _; simp [countWinner]
  | cons v rest ih =>
    intro a b hw
    have hrest : ∀ u ∈ rest, u.winner_id = p ∨ u.winner_id = q :=
      fun u hu => hw u (List.mem_cons_of_mem _ hu)
    rcases hw v (List.mem_cons_self _ _) with hv | hv
    · rw [List.foldl_cons, hv, bump_pair_left p q a b (Ne.symm hpq),
        ih (a + 1) b hrest, countWinner_cons, countWinner_cons,
        if_pos hv, if_neg (hv ▸ hpq)]
      simp [Nat.add_assoc]
    · rw [List.foldl_cons, hv, bump_pair_right p q a b hpq,
        ih a (b + 1) hrest, countWinner_cons, countWinner_cons,
        if_pos hv, if_neg (hv ▸ Ne.symm hpq)]
      simp [Nat.add_assoc]

lemma tally_one (p q : ℕ) (hpq : p ≠ q) :
    ∀ (l : List VoteRec) (a : ℕ),
      (∀ v ∈ l, v.winner_id = p ∨ v.winner_id = q) →
      l.foldl (fun m v => bump m v.winner_id) [(p, a)] =
        if countWinner q l = 0 then [(p, a + countWinner p l)]
        else [(p, a + countWinner p l), (q, countWinner q l)] := by
  intro l
  induction l with
  | nil => intro a _; simp [countWinner]
  | cons v rest ih =>
    intro a hw
    have hrest : ∀ u ∈ rest, u.winner_id = p ∨ u.winner_id = q :=
      fun u hu => hw u (List.mem_cons_of_mem _ hu)
    rcases hw v (List.mem_cons_self _ _) with hv | hv
    · have hq : ¬ (v.winner_id = q) := fun he => hpq (hv.symm.trans he)
      rw [List.foldl_cons, hv, bump_single_same, ih (a + 1) hrest,
        countWinner_cons, countWinner_cons, if_pos hv, if_neg hq]
      by_cases h0 : countWinner q rest = 0 <;> simp [h0, Nat.add_assoc]
    · have hp : ¬ (v.winner_id = p) := fun he => hpq (he.symm.trans hv)
      rw [List.foldl_cons, hv, bump_single_new p q a (Ne.symm hpq),
        tally_two p q hpq rest a 1 hrest, countWinner_cons, countWinner_cons,
        if_pos hv, if_neg hp]
      simp

/-- C5: for each debate, the participant credited as winner is the one
whose winner-id tally over the vote list is strictly largest; when the
two participants tie, the winner is the first key of the tally mapping
in insertion order, which is the winner named by the earliest vote in
the list. -/
theorem debate_winner_selection_spec (votes : List VoteRec) (p q : ℕ)
    (hpq : p ≠ q) (hne : votes ≠ [])
    (hw : ∀ v ∈ votes, v.winner_id = p ∨ v.winner_id = q) :
    (countWinner q votes < countWinner p votes →
      debateWinner votes = some p) ∧
    (countWinner p votes < countWinner q votes →
      debateWinner votes = some q) ∧
    (countWinner p votes = countWinner q votes →
      debateWinner votes = Option.map VoteRec.winner_id votes.head?) := by
  match votes, hne with
  | v :: rest, _ =>
  have hrest : ∀ u ∈ rest, u.winner_id = p ∨ u.winner_id = q :=
    fun u hu => hw u (List.mem_cons_of_mem _ hu)
  rcases hw v (List.mem_cons_self _ _) with hv | hv
  · have hq : ¬ (v.winner_id = q) := fun he => hpq (hv.symm.trans he)
    have hD : debateWinner (v :: rest) =
        pyArgmax (List.foldl (fun m u => bump m u.winner_id) [(p, 1)] rest) := by
      simp only [debateWinner, tallyVotes, List.foldl_cons, bump_nil, hv]
    have hcp : countWinner p (v :: rest) = 1 + countWinner p rest := by
      rw [countWinner_cons, if_pos hv]
    have hcq : countWinner q (v :: rest) = countWinner q rest := by
      rw [countWinner_cons, if_neg hq, Nat.zero_add]
    rw [hD, tally_one p q hpq rest 1 hrest, hcp, hcq]
    by_cases h0 : countWinner q rest = 0
    · rw [if_pos h0]
      refine ⟨fun _ => pyArgmax_single _ _, fun hlt => ?_, fun heq => ?_⟩
      · exfalso; omega
      · exfalso; omega
    · rw [if_neg h0, pyArgmax_pair]
      refine ⟨fun hlt => ?_, fun hlt => ?_, fun heq => ?_⟩
      · rw [if_neg (by omega)]
      · rw [if_pos hlt]
      · rw [if_neg (by omega)]
        simp [hv]
  · have hp : ¬ (v.winner_id = p) := fun he => hpq (he.symm.trans hv)
    have hrest2 : ∀ u ∈ rest, u.winner_id = q ∨ u.winner_id = p :=
      fun u hu => (hrest u hu).symm
    have hD : debateWinner (v :: rest) =
        pyArgmax (List.foldl (fun m u => bump m u.winner_id) [(q, 1)] rest) := by
      simp only [debateWinner, tallyVotes, List.foldl_cons, bump_nil, hv]
    have hcq : countWinner q (v :: rest) = 1 + countWinner q rest := by
      rw [countWinner_cons, if_pos hv]
    have hcp : countWinner p (v :: rest) = countWinner p rest := by
      rw [countWinner_cons, if_neg hp, Nat.zero_add]
    rw [hD, tally_one q p (Ne.symm hpq) rest 1 hrest2, hcp, hcq]
    by_cases h0 : countWinner p rest = 0
    · rw [if_pos h0]
      refine ⟨fun hlt => ?_, fun _ => pyArgmax_single _ _, fun heq => ?_⟩
      · exfalso; omega
      · exfalso; omega
    · rw [if_neg h0, pyArgmax_pair]
      refine ⟨fun hlt => ?_, fun hlt => ?_, fun heq => ?_⟩
      · rw [if_pos hlt]
      · rw [if_neg (by omega)]
      · rw [if_neg (by omega)]
        simp [hv]

/-- Witness for the winner-selection specification: on a concrete
two-vote tie between participants 0 and 1, the debate winner is the
winner named by the earliest vote. -/
theorem debate_winner_selection_spec_witness :
    debateWinner [⟨2, 0, "A good debate", "A"⟩, ⟨3, 1, "B was better", "B"⟩] =
      some 0 :=
  ((debate_winner_selection_spec
      [⟨2, 0, "A good debate", "A"⟩, ⟨3, 1, "B was better", "B"⟩] 0 1
      (by decide) (by decide) (by decide)).2.2 (by decide)).trans rfl

lemma bumped_map_fst (wc : List (ℕ × ℕ)) (w : ℕ) :
    (wc.map (fun p => if p.1 == w then (p.1, p.2 + 1) else p)).map Prod.fst =
      wc.map Prod.fst := by
  induction wc with
  | nil => rfl
  | cons x xs ih =>
    simp only [List.map_cons, ih]
    congr 1
    split <;> rfl

lemma map_id_no_key (xs : List (ℕ × ℕ)) (w : ℕ)
    (h : w ∉ xs.map Prod.fst) :
    xs.map (fun p => if p.1 == w then (p.1, p.2 + 1) else p) = xs := by
  induction xs with
  | nil => rfl
  | cons x rest ih =>
    simp only [List.map_cons, List.mem_cons, not_or] at h ⊢
    rw [if_neg (by simp only [beq_iff_eq]; exact fun he => h.1 he.symm),
      ih h.2]

lemma bumped_sum (wc : List (ℕ × ℕ)) (w : ℕ)
    (hnd : (wc.map Prod.fst).Nodup) (hw : w ∈ wc.map Prod.fst) :
    ((wc.map (fun p => if p.1 == w then (p.1, p.2 + 1) else p)).map
      Prod.snd).sum = (wc.map Prod.snd).sum + 1 := by
  induction wc with
  | nil => cases hw
  | cons x xs ih =>
    simp only [List.map_cons, List.nodup_cons] at hnd ⊢
    rcases List.mem_cons.1 hw with rfl | hmem
    · rw [if_pos (by simp), map_id_no_key xs x.1 hnd.1]
      simp only [List.sum_cons]
      omega
    · have hx : ¬ (x.1 == w) = true := by
        simp only [beq_iff_eq]
        rintro rfl
        exact hnd.1 hmem
      rw [if_neg hx]
      simp only [List.sum_cons, ih hnd.2 hmem]
      omega

lemma bump_keys (m : List (ℕ × ℕ)) (k : ℕ) :
    ∀ j ∈ (bump m k).map Prod.fst, j ∈ m.map Prod.fst ∨ j = k := by
  intro j hj
  by_cases h : m.any (fun p => p.1 == k)
  · rw [bump, if_pos h, bumped_map_fst] at hj
    exact Or.inl hj
  · rw [bump, if_neg h] at hj
    simp only [List.map_append, List.mem_append] at hj
    rcases hj with hj | hj
    · exact Or.inl hj
    · simp only [List.map_cons, List.map_nil, List.mem_cons,
        List.not_mem_nil, or_false] at hj
      exact Or.inr hj

lemma bump_ne_nil (m : List (ℕ × ℕ)) (k : ℕ) : bump m k ≠ [] := by
  rw [bump]
  split
  · rename_i h
    intro he
    rw [List.map_eq_nil_iff] at he
    subst he
    simp at h
  · simp

lemma tallyGo_ne_nil : ∀ (l : List VoteRec) (m : List (ℕ × ℕ)),
    m ≠ [] ∨ l ≠ [] →
    l.foldl (fun acc v => bump acc v.winner_id) m ≠ [] := by
  intro l
  induction l with
  | nil =>
    intro m hm
    rcases hm with hm | hm
    · exact hm
    · exact absurd rfl hm
  | cons v rest ih =>
    intro m _
    rw [List.foldl_cons]
    exact ih _ (Or.inl (bump_ne_nil m v.winner_id))

lemma tallyGo_keys : ∀ (l : List VoteRec) (m : List (ℕ × ℕ)) (j : ℕ),
    j ∈ (l.foldl (fun acc v => bump acc v.winner_id) m).map Prod.fst →
    j ∈ m.map Prod.fst ∨ j ∈ l.map VoteRec.winner_id := by
  intro l
  induction l with
  | nil =>
    intro m j hj
    exact Or.inl hj
  | cons v rest ih =>
    intro m j hj
    rw [List.foldl_cons] at hj
    rcases ih _ j hj with hj2 | hj2
    · rcases bump_keys m v.winner_id j hj2 with h3 | h3
      · exact Or.inl h3
      · exact Or.inr (by simp [h3])
    · exact Or.inr (List.mem_cons_of_mem _ hj2)

lemma any_beq_of_mem (wc : List (ℕ × ℕ)) (w : ℕ)
    (h : w ∈ wc.map Prod.fst) :
    wc.any (fun p => p.1 == w) = true := by
  simp only [List.any_eq_true, beq_iff_eq]
  simp only [List.mem_map] at h
  obtain ⟨p, hp, he⟩ := h
  exact ⟨p, hp, he⟩

lemma pick_mem : ∀ (xs : List (ℕ × ℕ)) (x : ℕ × ℕ),
    xs.foldl (fun best y => if best.2 < y.2 then y else best) x ∈ x :: xs := by
  intro xs
  induction xs with
  | nil =>
    intro x
    exact List.mem_cons_self _ _
  | cons y ys ih =>
    intro x
    rw [List.foldl_cons]
    have hmem := ih (if x.2 < y.2 then y else x)
    by_cases hc : x.2 < y.2
    · rw [if_pos hc] at hmem ⊢
      exact List.mem_cons_of_mem _ hmem
    · rw [if_neg hc] at hmem ⊢
      rcases List.mem_cons.1 hmem with h | h
      · rw [h]
        exact List.mem_cons_self _ _
      · exact List.mem_cons_of_mem _ (List.mem_cons_of_mem _ h)

lemma pyArgmax_mem (m : List (ℕ × ℕ)) (w : ℕ) (h : pyArgmax m = some w) :
    w ∈ m.map Prod.fst := by
  cases m with
  | nil => cases h
  | cons x xs =>
    simp only [pyArgmax, Option.some.injEq] at h
    subst h
    exact List.mem_map_of_mem Prod.fst (pick_mem xs x)

lemma accumWins_spec : ∀ (vl : List DebateVoteSet) (wc : List (ℕ × ℕ)),
    (∀ vs ∈ vl, vs.votes ≠ []) →
    (∀ vs ∈ vl, ∀ v ∈ vs.votes, v.winner_id ∈ wc.map Prod.fst) →
    (wc.map Prod.fst).Nodup →
    ∃ wc', accumWins wc vl = some wc' ∧
      wc'.map Prod.fst = wc.map Prod.fst ∧
      (wc'.map Prod.snd).sum = (wc.map Prod.snd).sum + vl.length := by
  intro vl
  induction vl with
  | nil =>
    intro wc _ _ _
    exact ⟨wc, rfl, rfl, by simp⟩
  | cons vs rest ih =>
    intro wc hne hin hnd
    have htne : tallyVotes vs.votes ≠ [] :=
      tallyGo_ne_nil vs.votes [] (Or.inr (hne vs (List.mem_cons_self _ _)))
    obtain ⟨w, hw⟩ : ∃ w, debateWinner vs.votes = some w := by
      have hD : debateWinner vs.votes = pyArgmax (tallyVotes vs.votes) := rfl
      cases ht : tallyVotes vs.votes with
      | nil => exact absurd ht htne
      | cons x xs =>
        rw [hD, ht]
        exact ⟨_, rfl⟩
    have hwk : w ∈ wc.map Prod.fst := by
      have h1 : w ∈ (tallyVotes vs.votes).map Prod.fst := pyArgmax_mem _ _ hw
      rcases tallyGo_keys vs.votes [] w h1 with h2 | h2
      · cases h2
      · simp only [List.mem_map] at h2
        obtain ⟨v, hv, he⟩ := h2
        exact he ▸ hin vs (List.mem_cons_self _ _) v hv
    have hbk := bumped_map_fst wc w
    obtain ⟨wc', h1, h2, h3⟩ := ih
      (wc.map (fun p => if p.1 == w then (p.1, p.2 + 1) else p))
      (fun u hu => hne u (List.mem_cons_of_mem _ hu))
      (by
        rw [hbk]
        exact fun u hu v hv => hin u (List.mem_cons_of_mem _ hu) v hv)
      (by rw [hbk]; exact hnd)
    refine ⟨wc', ?_, ?_, ?_⟩
    · simp only [accumWins, hw]
      rw [if_pos (any_beq_of_mem wc w hwk)]
      exact h1
    · rw [h2, hbk]
    · rw [h3, bumped_sum wc w hnd hwk, List.length_cons]
      omega

lemma fst_zeros (ids : List ℕ) :
    (ids.map (fun i => (i, (0 : ℕ)))).map Prod.fst = ids := by
  induction ids with
  | nil => rfl
  | cons x xs ih => simp only [List.map_cons, ih]

lemma sum_zeros (ids : List ℕ) :
    ((ids.map (fun i => (i, (0 : ℕ)))).map Prod.snd).sum = 0 := by
  induction ids with
  | nil => rfl
  | cons x xs ih => simpa using ih

/-- C3: after aggregation, for any distribution of votes over the
collected debates (every debate having at least one vote, all winner
ids registered, registered ids pairwise distinct), the win-counts
accumulation of calculate_results succeeds and the sum of win counts
over all agents equals the total number of debates: exactly one winner
is credited per debate. -/
theorem win_counts_sum_eq_debates (ids : List ℕ) (vl : List DebateVoteSet)
    (hnd : ids.Nodup)
    (hne : ∀ vs ∈ vl, vs.votes ≠ [])
    (hin : ∀ vs ∈ vl, ∀ v ∈ vs.votes, v.winner_id ∈ ids) :
    ∃ wc, accumWins (ids.map (fun i => (i, 0))) vl = some wc ∧
      (wc.map Prod.snd).sum = vl.length := by
  have hkeys := fst_zeros ids
  obtain ⟨wc, h1, h2, h3⟩ := accumWins_spec vl (ids.map (fun i => (i, 0)))
    hne (by rw [hkeys]; exact hin) (by rw [hkeys]; exact hnd)
  refine ⟨wc, h1, ?_⟩
  rw [h3, sum_zeros ids, Nat.zero_add]

/-- Witness for the win-counts sum: a concrete 3-agent vote store with
two debates sums to 2. -/
theorem win_counts_sum_eq_debates_witness :
    ∃ wc, accumWins [(0, 0), (1, 0), (2, 0)]
        [⟨(0, 1), [⟨2, 0, "A is better", "A"⟩]⟩,
         ⟨(0, 2), [⟨1, 0, "A again", "A"⟩]⟩] = some wc ∧
      (wc.map Prod.snd).sum = 2 :=
  win_counts_sum_eq_debates [0, 1, 2]
    [⟨(0, 1), [⟨2, 0, "A is better", "A"⟩]⟩,
     ⟨(0, 2), [⟨1, 0, "A again", "A"⟩]⟩]
    (by decide) (by decide) (by decide)

lemma collect_votes_voters (backend : Backend) (times : ℕ → ℚ) (d : Debate) :
    ∀ (ids : List ℕ) (st : Tournament) (acc : List VoteRec),
    (collect_votes backend times d ids (st, acc)).2.map (fun v => v.voter_id) =
      acc.map (fun v => v.voter_id) ++
        ids.filter (fun i => !(i == d.participants.1 || i == d.participants.2)) := by
  intro ids
  induction ids with
  | nil =>
    intro st acc
    simp [collect_votes]
  | cons i rest ih =>
    intro st acc
    by_cases h : i = d.participants.1 ∨ i = d.participants.2
    · have hb : (!(i == d.participants.1 || i == d.participants.2)) = false := by
        rcases h with h | h <;> simp [h]
    
      simp only [collect_votes, if_pos h, List.filter_cons, hb]
      rw [ih st acc]
      simp
    · have hb : (!(i == d.participants.1 || i == d.participants.2)) = true := by
        push_neg at h
        simp [h.1, h.2]
      simp only [collect_votes, if_neg h]
      rw [ih]
      simp only [List.filter_cons, hb, List.map_append]
      simp

lemma filter_ne_length (l : List ℕ) (b : ℕ) (hb : b ∈ l) (hnd : l.Nodup) :
    (l.filter (fun i => !(i == b))).length = l.length - 1 := by
  induction l with
  | nil => cases hb
  | cons x xs ih =>
    rw [List.nodup_cons] at hnd
    rcases List.mem_cons.1 hb with rfl | hmem
    · rw [List.filter_cons, if_neg (by simp)]
      rw [List.filter_eq_self.mpr ?_]
      · simp
      · intro a ha
        have hax : a ≠ b := fun he => hnd.1 (he ▸ ha)
        simp [hax]
    · have hxb : x ≠ b := fun he => hnd.1 (he ▸ hmem)
      rw [List.filter_cons, if_pos (by simp [hxb]), List.length_cons,
        List.length_cons, ih hmem hnd.2]
      have hxs : xs ≠ [] := List.ne_nil_of_mem hmem
      have := List.length_pos.mpr hxs
      omega

lemma filter_split (l : List ℕ) (a b : ℕ) :
    l.filter (fun i => !(i == a || i == b)) =
      (l.filter (fun i => !(i == a))).filter (fun i => !(i == b)) := by
  rw [List.filter_filter]
  apply List.filter_congr
  intro x _
  cases x == a <;> cases x == b <;> rfl

lemma filter_two_removed (l : List ℕ) (a b : ℕ) (hnd : l.Nodup) (ha : a ∈ l)
    (hb : b ∈ l) (hab : a ≠ b) :
    (l.filter (fun i => !(i == a || i == b))).length = l.length - 2 := by
  rw [filter_split l a b]
  have hba : b ≠ a := Ne.symm hab
  have hbmem : b ∈ l.filter (fun i => !(i == a)) := by
    rw [List.mem_filter]
    exact ⟨hb, by simp [hba]⟩
  rw [filter_ne_length _ b hbmem (hnd.filter _), filter_ne_length l a ha hnd]
  omega

/-- C6: the voter set of one debate is exactly the registered agent
list with the two participants removed, iterated in registration order,
so the debate's vote list has exactly n - 2 votes when the two
participants are distinct registered agents among n pairwise distinct
registered ids. -/
theorem voter_set_spec (backend : Backend) (times : ℕ → ℚ) (d : Debate)
    (ids : List ℕ) (st : Tournament)
    (hnd : ids.Nodup) (h1 : d.participants.1 ∈ ids)
    (h2 : d.participants.2 ∈ ids)
    (hne : d.participants.1 ≠ d.participants.2) :
    (collect_votes backend times d ids (st, [])).2.map (fun v => v.voter_id) =
      ids.filter
        (fun i => !(i == d.participants.1 || i == d.participants.2)) ∧
    (collect_votes backend times d ids (st, [])).2.length =
      ids.length - 2 := by
  have hv := collect_votes_voters backend times d ids st []
  simp only [List.map_nil, List.nil_append] at hv
  refine ⟨hv, ?_⟩
  have hlen : (collect_votes backend times d ids (st, [])).2.length =
      ((collect_votes backend times d ids (st, [])).2.map
        (fun v => v.voter_id)).length := by
    rw [List.length_map]
  rw [hlen, hv, filter_two_removed ids _ _ hnd h1 h2 hne]

/-- Witness for the voter-set specification: with four registered
agents and debate participants 1 and 3, the voters are agents 0 and 2,
giving 4 - 2 votes. -/
theorem voter_set_spec_witness :
    (collect_votes (fun _ => "A") (fun _ => 0) ⟨(1, 3), []⟩ [0, 1, 2, 3]
      (Tournament.mkTournament 4 "llama3.2" "Q" "position", [])).2.length =
      4 - 2 :=
  (voter_set_spec (fun _ => "A") (fun _ => 0) ⟨(1, 3), []⟩ [0, 1, 2, 3]
    (Tournament.mkTournament 4 "llama3.2" "Q" "position")
    (by decide) (by decide) (by decide) (by decide)).2

lemma foldl_hom {σ τ α : Type} (F : σ → τ) (f : σ → α → σ) (g : τ → α → τ)
    (h : ∀ s a, F (f s a) = g (F s) a) :
    ∀ (l : List α) (s : σ), F (l.foldl f s) = l.foldl g (F s) := by
  intro l
  induction l with
  | nil => intro s; rfl
  | cons x xs ih =>
    intro s
    rw [List.foldl_cons, List.foldl_cons, ih, h]

lemma map_getD {α β : Type} (f : α → β) :
    ∀ (l : List α) (i : ℕ) (d : α),
      (l.map f).getD i (f d) = f (l.getD i d) := by
  intro l
  induction l with
  | nil => intro i d; rfl
  | cons x xs ih =>
    intro i d
    cases i with
    | zero => rfl
    | succ k => exact ih k d

lemma map_set {α β : Type} (f : α → β) :
    ∀ (l : List α) (i : ℕ) (a : α),
      (l.set i a).map f = (l.map f).set i (f a) := by
  intro l
  induction l with
  | nil => intro i a; rfl
  | cons x xs ih =>
    intro i a
    cases i with
    | zero => rfl
    | succ k => simp only [List.set_cons_succ, List.map_cons, ih]

lemma getContext_core (a : DebateAgent) (p : String) :
    a.getContext p = (agentCore a).getContext p := rfl

lemma gen_core (backend : Backend) (e : ℚ) (a : DebateAgent) (p : String)
    (ih : Bool) :
    (a.generate_response backend e p ih).1 =
      (CoreAgent.gen backend (agentCore a) p ih).1 ∧
    agentCore (a.generate_response backend e p ih).2 =
      (CoreAgent.gen backend (agentCore a) p ih).2 := by
  constructor
  · rfl
  · simp [agentCore, DebateAgent.generate_response, CoreAgent.gen,
      getContext_core]

lemma setInit_core (backend : Backend) (e : ℚ) (a : DebateAgent)
    (q lbl : String) :
    (a.set_initial_position backend e q lbl).1 =
      (CoreAgent.setInit backend (agentCore a) q lbl).1 ∧
    agentCore (a.set_initial_position backend e q lbl).2 =
      (CoreAgent.setInit backend (agentCore a) q lbl).2 := by
  constructor
  · rfl
  · show agentCore { (a.generate_response backend e q false).2 with
        initial_position := some (a.generate_response backend e q false).1,
        position_label := some lbl } = _
    have hpos : ∀ (x : DebateAgent) (v w : Option String),
        agentCore { x with initial_position := v, position_label := w } =
          { agentCore x with initial_position := v, position_label := w } :=
      fun x v w => rfl
    rw [hpos, (gen_core backend e a q false).2]
    rfl

lemma agentAt_core (l : List DebateAgent) (i : ℕ) :
    agentCore (agentAt l i) = coreAgentAt (l.map agentCore) i := by
  unfold agentAt coreAgentAt
  have hd : agentCore (DebateAgent.mkAgent i "") = CoreAgent.mkCore i "" := rfl
  rw [← hd, map_getD]

lemma phase1Step_core (backend : Backend) (times : ℕ → ℚ) (s : Tournament)
    (i : ℕ) :
    stateCore (phase1Step backend times s i) =
      corePhase1Step backend (stateCore s) i := by
  have h1 := agentAt_core s.agents i
  have h2 := setInit_core backend (times s.calls) (agentAt s.agents i)
    s.topic_question s.position_label
  simp only [phase1Step, corePhase1Step, stateCore, CoreState.mk.injEq,
    map_set]
  rw [h2.1, h2.2, h1]
  simp

lemma phase1_core (backend : Backend) (times : ℕ → ℚ) (s : Tournament) :
    stateCore (run_phase_1 backend times s) = corePhase1 backend (stateCore s) := by
  unfold run_phase_1 corePhase1
  exact foldl_hom stateCore (phase1Step backend times) (corePhase1Step backend)
    (phase1Step_core backend times) (List.range s.num_agents) s

lemma gen_core1 (backend : Backend) (e : ℚ) (a : DebateAgent) (p : String)
    (ih : Bool) :
    (a.generate_response backend e p ih).1 =
      (CoreAgent.gen backend (agentCore a) p ih).1 := rfl

lemma gen_core2 (backend : Backend) (e : ℚ) (a : DebateAgent) (p : String)
    (ih : Bool) :
    agentCore (a.generate_response backend e p ih).2 =
      (CoreAgent.gen backend (agentCore a) p ih).2 :=
  (gen_core backend e a p ih).2

lemma initpos_core (a : DebateAgent) :
    a.initial_position = (agentCore a).initial_position := rfl

lemma format_core (s : Tournament) (d : Debate) :
    format_debate_for_voting s d = coreFormat (stateCore s) d := rfl

lemma runDebate_core (backend : Backend) (times : ℕ → ℚ) (s : Tournament)
    (i j : ℕ) :
    stateCore (run_debate backend times s i j) =
      coreRunDebate backend (stateCore s) i j := by
  simp only [run_debate, coreRunDebate, stateCore, CoreState.mk.injEq,
    map_set, initpos_core, gen_core1, gen_core2, agentAt_core]

lemma phase2_core (backend : Backend) (times : ℕ → ℚ) (s : Tournament) :
    stateCore (run_phase_2 backend times s) =
      corePhase2 backend (stateCore s) := by
  unfold run_phase_2 corePhase2
  exact foldl_hom stateCore
    (fun st p => run_debate backend times st p.1 p.2)
    (fun st p => coreRunDebate backend st p.1 p.2)
    (fun st p => runDebate_core backend times st p.1 p.2)
    (combinations2 (List.range s.num_agents)) s

lemma collect_core (backend : Backend) (times : ℕ → ℚ) (d : Debate) :
    ∀ (ids : List ℕ) (st : Tournament) (acc : List VoteRec),
    stateCore (collect_votes backend times d ids (st, acc)).1 =
        (coreCollect backend d ids (stateCore st, acc)).1 ∧
    (collect_votes backend times d ids (st, acc)).2 =
        (coreCollect backend d ids (stateCore st, acc)).2 := by
  intro ids
  induction ids with
  | nil =>
    intro st acc
    exact ⟨rfl, rfl⟩
  | cons i rest ih =>
    intro st acc
    by_cases h : i = d.participants.1 ∨ i = d.participants.2
    · simp only [collect_votes, coreCollect, if_pos h]
      exact ih st acc
    · simp only [collect_votes, coreCollect, if_neg h]
      obtain ⟨ih1, ih2⟩ := ih _ _
      rw [ih1, ih2]
      constructor <;>
        · simp only [stateCore, CoreState.mk.injEq, map_set, gen_core1,
            gen_core2, agentAt_core, format_core, Prod.mk.injEq]

lemma phase3Debate_core (backend : Backend) (times : ℕ → ℚ) (s : Tournament)
    (d : Debate) :
    stateCore (phase3Debate backend times s d) =
      corePhase3Debate backend (stateCore s) d := by
  unfold phase3Debate corePhase3Debate
  obtain ⟨h1, h2⟩ := collect_core backend times d (List.range s.num_agents) s []
  have hset : ∀ (x : Tournament) (V : List DebateVoteSet),
      stateCore { x with votes := V } = { stateCore x with votes := V } :=
    fun x V => rfl
  have hv : ∀ (x : Tournament), x.votes = (stateCore x).votes := fun x => rfl
  rw [hset, hv, h1, h2]
  rfl

lemma phase3_core (backend : Backend) (times : ℕ → ℚ) (s : Tournament) :
    stateCore (run_phase_3 backend times s) =
      corePhase3 backend (stateCore s) := by
  unfold run_phase_3 corePhase3
  exact foldl_hom stateCore _ _ (phase3Debate_core backend times) s.debates s

lemma calc_core (s : Tournament) :
    Option.map stripResults (calculate_results s) = coreCalc (stateCore s) := by
  have hsame : coreCalc (stateCore s) =
      (match accumWins ((List.range s.num_agents).map (fun i => (i, 0)))
          s.votes with
       | none => none
       | some wc =>
         some { num_agents := s.num_agents
                topic_question := s.topic_question
                position_label := s.position_label
                rankings := sortRankings wc
                win_counts := wc
                agent_performance :=
                  (s.agents.map agentCore).map coreMetrics }) := rfl
  rw [hsame]
  unfold calculate_results
  cases h : accumWins ((List.range s.num_agents).map (fun i => (i, 0)))
      s.votes with
  | none => rfl
  | some wc =>
    simp only [Option.map]
    congr 1
    simp only [stripResults]
    rw [List.map_map, List.map_map]
    rfl

/-- C8: two full tournament runs with the same backend stub over the
same agent set produce identical tournament_results output except for
the wall-clock-derived fields (the timestamp/duration entries and the
latency metrics), modelled as the latency oracle being the only
run-to-run variation: the stripped results do not depend on it. -/
theorem tournament_determinism_modulo_time (backend : Backend)
    (t₁ t₂ : ℕ → ℚ) (n : ℕ) (model topic label : String) :
    Option.map stripResults (run_tournament backend t₁ n model topic label) =
      Option.map stripResults (run_tournament backend t₂ n model topic label) := by
  have key : ∀ t : ℕ → ℚ,
      Option.map stripResults (run_tournament backend t n model topic label) =
        coreRun backend n model topic label := by
    intro t
    unfold run_tournament coreRun
    rw [calc_core, phase3_core, phase2_core, phase1_core]
  rw [key t₁, key t₂]

lemma foldl_inv {σ α : Type} (P : σ → Prop) (f : σ → α → σ)
    (h : ∀ s a, P s → P (f s a)) :
    ∀ (l : List α) (s : σ), P s → P (l.foldl f s) := by
  intro l
  induction l with
  | nil => intro s hs; exact hs
  | cons x xs ih => intro s hs; exact ih _ (h s x hs)

lemma foldl_inv_mem {σ α : Type} (P : σ → Prop) (Q : α → Prop) (f : σ → α → σ)
    (h : ∀ s a, P s → Q a → P (f s a)) :
    ∀ (l : List α), (∀ a ∈ l, Q a) → ∀ (s : σ), P s → P (l.foldl f s) := by
  intro l
  induction l with
  | nil => intro _ s hs; exact hs
  | cons x xs ih =>
    intro hq s hs
    exact ih (fun a ha => hq a (List.mem_cons_of_mem _ ha)) _
      (h s x hs (hq x (List.mem_cons_self _ _)))

lemma phase1_preserves (backend : Backend) (times : ℕ → ℚ) (s : Tournament) :
    (run_phase_1 backend times s).num_agents = s.num_agents ∧
    (run_phase_1 backend times s).debates = s.debates ∧
    (run_phase_1 backend times s).votes = s.votes := by
  unfold run_phase_1
  have hstep : ∀ (x : Tournament) (i : ℕ),
      (x.num_agents = s.num_agents ∧ x.debates = s.debates ∧
        x.votes = s.votes) →
      ((phase1Step backend times x i).num_agents = s.num_agents ∧
        (phase1Step backend times x i).debates = s.debates ∧
        (phase1Step backend times x i).votes = s.votes) :=
    fun x i hx => hx
  exact foldl_inv _ _ hstep (List.range s.num_agents) s ⟨rfl, rfl, rfl⟩

lemma phase2_debates (backend : Backend) (times : ℕ → ℚ) :
    ∀ (pairs : List (ℕ × ℕ)) (s : Tournament),
    ((pairs.foldl (fun st p => run_debate backend times st p.1 p.2)
        s).debates).map (fun d => d.participants) =
      s.debates.map (fun d => d.participants) ++ pairs ∧
    (pairs.foldl (fun st p => run_debate backend times st p.1 p.2)
        s).num_agents = s.num_agents ∧
    (pairs.foldl (fun st p => run_debate backend times st p.1 p.2)
        s).votes = s.votes := by
  intro pairs
  induction pairs with
  | nil => intro s; exact ⟨by simp, rfl, rfl⟩
  | cons p ps ih =>
    intro s
    obtain ⟨h1, h2, h3⟩ := ih (run_debate backend times s p.1 p.2)
    refine ⟨?_, h2, h3⟩
    rw [List.foldl_cons, h1]
    have hd : (run_debate backend times s p.1 p.2).debates.map
        (fun d => d.participants) =
        s.debates.map (fun d => d.participants) ++ [p] := by
      simp [run_debate]
    rw [hd, List.append_assoc, List.singleton_append]

lemma collect_preserves (backend : Backend) (times : ℕ → ℚ) (d : Debate) :
    ∀ (ids : List ℕ) (st : Tournament) (acc : List VoteRec),
    (collect_votes backend times d ids (st, acc)).1.num_agents =
        st.num_agents ∧
    (collect_votes backend times d ids (st, acc)).1.votes = st.votes := by
  intro ids
  induction ids with
  | nil => intro st acc; exact ⟨rfl, rfl⟩
  | cons i rest ih =>
    intro st acc
    by_cases h : i = d.participants.1 ∨ i = d.participants.2
    · simp only [collect_votes, if_pos h]
      exact ih st acc
    · simp only [collect_votes, if_neg h]
      exact ih _ _

lemma collect_winners (backend : Backend) (times : ℕ → ℚ) (d : Debate) :
    ∀ (ids : List ℕ) (st : Tournament) (acc : List VoteRec),
    ∀ v ∈ (collect_votes backend times d ids (st, acc)).2,
      v ∈ acc ∨ v.winner_id = d.participants.1 ∨
        v.winner_id = d.participants.2 := by
  intro ids
  induction ids with
  | nil =>
    intro st acc v hv
    exact Or.inl hv
  | cons i rest ih =>
    intro st acc v hv
    by_cases h : i = d.participants.1 ∨ i = d.participants.2
    · simp only [collect_votes, if_pos h] at hv
      exact ih st acc v hv
    · simp only [collect_votes, if_neg h] at hv
      rcases ih _ _ v hv with hva | hvw
      · rcases List.mem_append.1 hva with hva | hva
        · exact Or.inl hva
        · simp only [List.mem_cons, List.not_mem_nil, or_false] at hva
          subst hva
          right
          simp only [vote_winner]
          split
          · left
            rfl
          · right
            rfl
      · exact Or.inr hvw

lemma phase3Debate_inv (backend : Backend) (times : ℕ → ℚ) (n : ℕ)
    (hn : 3 ≤ n) (s : Tournament) (d : Debate)
    (hs : s.num_agents = n ∧ ∀ vs ∈ s.votes, vs.votes ≠ [] ∧
      ∀ v ∈ vs.votes, v.winner_id ∈ List.range n)
    (hd : d.participants.1 < d.participants.2 ∧ d.participants.2 < n) :
    (phase3Debate backend times s d).num_agents = n ∧
    ∀ vs ∈ (phase3Debate backend times s d).votes, vs.votes ≠ [] ∧
      ∀ v ∈ vs.votes, v.winner_id ∈ List.range n := by
  obtain ⟨hp, hv⟩ :=
    collect_preserves backend times d (List.range s.num_agents) s []
  constructor
  · show (collect_votes backend times d
      (List.range s.num_agents) (s, [])).1.num_agents = n
    rw [hp, hs.1]
  · intro vs hvs
    have hvs2 : vs ∈ (collect_votes backend times d
          (List.range s.num_agents) (s, [])).1.votes ++
        [⟨d.participants,
          (collect_votes backend times d
            (List.range s.num_agents) (s, [])).2⟩] := hvs
    rw [hv] at hvs2
    rcases List.mem_append.1 hvs2 with hmem | hmem
    · exact hs.2 vs hmem
    · simp only [List.mem_cons, List.not_mem_nil, or_false] at hmem
      subst hmem
      have hp1 : d.participants.1 ∈ List.range s.num_agents :=
        List.mem_range.2 (by rw [hs.1]; exact lt_trans hd.1 hd.2)
      have hp2 : d.participants.2 ∈ List.range s.num_agents :=
        List.mem_range.2 (by rw [hs.1]; exact hd.2)
      have hvoters := collect_votes_voters backend times d
        (List.range s.num_agents) s []
      simp only [List.map_nil, List.nil_append] at hvoters
      have hlen : (collect_votes backend times d
          (List.range s.num_agents) (s, [])).2.length = n - 2 := by
        have hc := congrArg List.length hvoters
        rw [List.length_map] at hc
        rw [hc, filter_two_removed (List.range s.num_agents) _ _
          (List.nodup_range s.num_agents) hp1 hp2 (ne_of_lt hd.1),
          List.length_range, hs.1]
      constructor
      · intro he
        have he2 : (collect_votes backend times d
            (List.range s.num_agents) (s, [])).2 = [] := he
        rw [he2] at hlen
        simp only [List.length_nil] at hlen
        omega
      · intro v hv2
        rcases collect_winners backend times d (List.range s.num_agents)
            s [] v hv2 with h0 | h1 | h1
        · cases h0
        · rw [h1]
          exact List.mem_range.2 (lt_trans hd.1 hd.2)
        · rw [h1]
          exact List.mem_range.2 hd.2

lemma tournament_totality (backend : Backend) (times : ℕ → ℚ) (n : ℕ)
    (model topic label : String) (hn : 3 ≤ n) :
    ∃ r, run_tournament backend times n model topic label = some r := by
  have hmk_n : (Tournament.mkTournament n model topic label).num_agents = n := rfl
  have hmk_d : (Tournament.mkTournament n model topic label).debates = [] := rfl
  have hmk_v : (Tournament.mkTournament n model topic label).votes = [] := rfl
  obtain ⟨h1n, h1d, h1v⟩ := phase1_preserves backend times
    (Tournament.mkTournament n model topic label)
  set s1 := run_phase_1 backend times
    (Tournament.mkTournament n model topic label) with hs1
  obtain ⟨h2d, h2n, h2v⟩ := phase2_debates backend times
    (combinations2 (List.range s1.num_agents)) s1
  have h2d' : (run_phase_2 backend times s1).debates.map
      (fun d => d.participants) =
      s1.debates.map (fun d => d.participants) ++
        combinations2 (List.range s1.num_agents) := h2d
  have h2n' : (run_phase_2 backend times s1).num_agents = s1.num_agents := h2n
  have h2v' : (run_phase_2 backend times s1).votes = s1.votes := h2v
  set s2 := run_phase_2 backend times s1 with hs2
  have hdd : ∀ d ∈ s2.debates,
      d.participants.1 < d.participants.2 ∧ d.participants.2 < n := by
    intro d hd
    have hm : d.participants ∈ s2.debates.map (fun d => d.participants) :=
      List.mem_map_of_mem _ hd
    rw [h2d', h1d, hmk_d] at hm
    simp only [List.map_nil, List.nil_append] at hm
    rw [h1n, hmk_n] at hm
    have hm2 : (d.participants.1, d.participants.2) ∈
        combinations2 (List.range n) := by
      rw [Prod.mk.eta]
      exact hm
    obtain ⟨_, hb, hab⟩ :=
      (comb2_mem (List.range n) (List.pairwise_lt_range n) _ _).1 hm2
    exact ⟨hab, List.mem_range.1 hb⟩
  have hP : s2.num_agents = n ∧ ∀ vs ∈ s2.votes, vs.votes ≠ [] ∧
      ∀ v ∈ vs.votes, v.winner_id ∈ List.range n := by
    constructor
    · rw [h2n', h1n, hmk_n]
    · rw [h2v', h1v, hmk_v]
      intro vs hvs
      cases hvs
  obtain ⟨h3n, h3v⟩ := foldl_inv_mem
    (fun x : Tournament => x.num_agents = n ∧ ∀ vs ∈ x.votes,
      vs.votes ≠ [] ∧ ∀ v ∈ vs.votes, v.winner_id ∈ List.range n)
    (fun d : Debate =>
      d.participants.1 < d.participants.2 ∧ d.participants.2 < n)
    (phase3Debate backend times)
    (fun x d hx hd => phase3Debate_inv backend times n hn x d hx hd)
    s2.debates hdd s2 hP
  obtain ⟨wc, hwc, _⟩ := accumWins_spec
    (s2.debates.foldl (phase3Debate backend times) s2).votes
    ((List.range n).map (fun i => (i, 0)))
    (fun vs hvs => (h3v vs hvs).1)
    (by
      rw [fst_zeros]
      exact fun vs hvs v hv => (h3v vs hvs).2 v hv)
    (by
      rw [fst_zeros]
      exact List.nodup_range n)
  have hnum : (run_phase_3 backend times s2).num_agents = n := h3n
  have hwc2 : accumWins ((List.range n).map (fun i => (i, 0)))
      (run_phase_3 backend times s2).votes = some wc := hwc
  have hres : calculate_results (run_phase_3 backend times s2) =
      some { num_agents := n
             topic_question := (run_phase_3 backend times s2).topic_question
             position_label := (run_phase_3 backend times s2).position_label
             rankings := sortRankings wc
             win_counts := wc
             agent_performance := (run_phase_3 backend times
               s2).agents.map DebateAgent.get_metrics } := by
    unfold calculate_results
    rw [hnum, hwc2]
  exact ⟨_, hres⟩

/-- C9: aggregation is total exactly on the nonempty-vote boundary: the
per-debate maximum errors on an empty tally (modelled as none); for a
2-agent tournament the single debate's voter set is empty, its stored
vote list is empty, and the whole run fails to produce results; for
any tournament with 3 or more agents every debate has a nonempty vote
list and aggregation produces a result. -/
theorem aggregation_totality_boundary :
    debateWinner [] = none ∧
    (∀ (backend : Backend) (times : ℕ → ℚ) (model topic label : String),
      (run_phase_3 backend times (run_phase_2 backend times
        (run_phase_1 backend times
          (Tournament.mkTournament 2 model topic label)))).votes =
        [⟨(0, 1), []⟩] ∧
      run_tournament backend times 2 model topic label = none) ∧
    (∀ (backend : Backend) (times : ℕ → ℚ) (n : ℕ)
      (model topic label : String), 3 ≤ n →
      ∃ r, run_tournament backend times n model topic label = some r) :=
  ⟨rfl, fun backend times model topic label => ⟨rfl, rfl⟩,
   fun backend times n model topic label hn =>
     tournament_totality backend times n model topic label hn⟩

/-- Witness for the aggregation totality boundary at agent counts 2
and 3 with a concrete backend stub. -/
theorem aggregation_totality_boundary_witness :
    run_tournament (fun _ => "A") (fun _ => 0) 2 "llama3.2"
        "Describe your ideal society in 200 words." "position" = none ∧
    ∃ r, run_tournament (fun _ => "A") (fun _ => 0) 3 "llama3.2"
        "Describe your ideal society in 200 words." "position" = some r :=
  ⟨(aggregation_totality_boundary.2.1 (fun _ => "A") (fun _ => 0) "llama3.2"
      "Describe your ideal society in 200 words." "position").2,
   aggregation_totality_boundary.2.2 (fun _ => "A") (fun _ => 0) 3 "llama3.2"
     "Describe your ideal society in 200 words." "position" (by norm_num)⟩
